import Mathlib

/-!
Verification of the potential-outcomes randomization-test application.

The definitions below embed the data model and the operations of
`DataInput.tsx` and `PlotDisplay.tsx` (the source files of the repository).
Components of the core that live outside the provided sources (the
simulation context: history manager, run controller, `updateCell`,
`setUserData`, `renameColumn`, the p-value derivation) are modelled from
the specification; each such definition carries a doc comment starting
`Modelled from the spec:`.

Numbers are modelled as rationals (`ℚ`); an absent cell is `none`.
-/

namespace PotentialOutcomes

/-- One observation row: `data` is the ordered sequence of slots
(value or absent), `assignment` names the realized slot.
From the source's `DataRow` usage in `DataInput.tsx`. -/
structure DataRow where
  data : List (Option ℚ)
  assignment : ℕ
deriving DecidableEq, Repr

/-- The user-editable DataSet: rows, control column, column names.
From the source's `UserDataState` usage in `DataInput.tsx`
(`rows`, `controlColumnIndex`, `columnNames`). -/
structure UserDataState where
  rows : List DataRow
  controlColumnIndex : ℕ
  columnNames : List String
deriving DecidableEq, Repr

/-- JavaScript's `array.map((x, i) => f i x)` starting at index `n`:
an index-aware map, used to embed the source's indexed `.map` calls. -/
def mapIdxFrom (f : ℕ → α → β) : ℕ → List α → List β
  | _, [] => []
  | n, a :: as => f n a :: mapIdxFrom f (n + 1) as

/-- Is every slot of the row absent?  Embeds the source's
`row.data.every(cell => cell === null)`. -/
def isAllAbsent (row : DataRow) : Bool :=
  row.data.all (fun c => c = none)

/-- Modelled from the spec: `addRow()` (a Data Model mutator living in the
simulation context, which is not among the provided sources) appends a
fresh fully-absent placeholder row; its width is the column count. -/
def addRow (st : UserDataState) : UserDataState :=
  { st with rows := st.rows ++ [⟨List.replicate st.columnNames.length none, 0⟩] }

/-- The placeholder-maintaining controller from `DataInput.tsx`
(the `useEffect` watching `userData.rows`): when not simulating, if the
row list is empty or the last row's data has no `null` cell
(`!rows[last].data.some(cell => cell === null)`), call `addRow()`. -/
def ensurePlaceholder (isSimulating : Bool) (st : UserDataState) : UserDataState :=
  if isSimulating = false ∧
      (st.rows = [] ∨ ∃ last ∈ st.rows.getLast?, last.data.all (fun c => c.isSome)) then
    addRow st
  else st

/-- Modelled from the spec: `updateCell(rowIndex, slotIndex, value)` (a Data
Model mutator living outside the provided sources) sets the slot to a number
or clears it. -/
def updateCell (rowIndex slotIndex : ℕ) (value : Option ℚ) (st : UserDataState) :
    UserDataState :=
  { st with
    rows := mapIdxFrom
      (fun i row => if i = rowIndex then { row with data := row.data.set slotIndex value }
                    else row) 0 st.rows }

/-- Per-row body of `applyTreatmentEffect` from `DataInput.tsx`:
`referenceIndex = row.assignment`, `otherIndex = 1 - referenceIndex`;
if the reference slot is populated, overwrite the other slot with
`referenceValue + (referenceIndex === 0 ? effect : -effect)`; otherwise if
the other slot is populated, fill the reference slot with
`otherValue + (referenceIndex === 0 ? -effect : effect)`; otherwise leave
the row unchanged. -/
def applyTreatmentEffectRow (effect : ℚ) (row : DataRow) : DataRow :=
  let referenceIndex := row.assignment
  let otherIndex := 1 - referenceIndex
  match row.data[referenceIndex]? with
  | some (some referenceValue) =>
    { row with
      data := row.data.set otherIndex
        (some (referenceValue + (if referenceIndex = 0 then effect else -effect))) }
  | _ =>
    match row.data[otherIndex]? with
    | some (some otherValue) =>
      { row with
        data := row.data.set referenceIndex
          (some (otherValue + (if referenceIndex = 0 then -effect else effect))) }
    | _ => row

/-- `applyTreatmentEffect` from `DataInput.tsx`: returns early while
simulating; otherwise maps every row except the last (the placeholder)
through `applyTreatmentEffectRow`. -/
def applyTreatmentEffect (isSimulating : Bool) (effect : ℚ) (userData : UserDataState) :
    UserDataState :=
  if isSimulating then userData
  else
    { userData with
      rows := mapIdxFrom
        (fun rowIndex row =>
          if rowIndex = userData.rows.length - 1 then row
          else applyTreatmentEffectRow effect row) 0 userData.rows }

/-- JavaScript `name.slice(0, 20)`: the first 20 characters. -/
def strTake20 (name : String) : String :=
  String.mk (name.data.take 20)

/-- Modelled from the spec: `renameColumn(index, name)` (living outside the
provided sources) stores the name truncated to at most 20 characters —
truncation, not rejection. The in-source caller `handleColumnNameChange`
performs the same truncation via `.slice(0, 20)`. -/
def renameColumn (index : ℕ) (name : String) (st : UserDataState) : UserDataState :=
  { st with columnNames := st.columnNames.set index (strTake20 name) }

/-- `handleColumnNameChange` from `DataInput.tsx`: returns early while
simulating, otherwise calls `renameColumn(index, value.slice(0, 20))`. -/
def handleColumnNameChange (isSimulating : Bool) (index : ℕ) (name : String)
    (st : UserDataState) : UserDataState :=
  if isSimulating then st else renameColumn index (strTake20 name) st

/-- The contribution of one row to the group of column `c`, from the body of
`calculateColumnAverages` in `DataInput.tsx`: the cell's value when it is
populated and the row's `assignment` equals the column index, else nothing. -/
def cellContrib (row : DataRow) (c : ℕ) : Option ℚ :=
  match row.data[c]? with
  | some (some v) => if row.assignment = c then some v else none
  | _ => none

/-- The ordered group of values collected for column `c`. -/
def column (rows : List DataRow) (c : ℕ) : List ℚ :=
  rows.filterMap (fun row => cellContrib row c)

/-- The rows traversed by `calculateColumnAverages` after its skip clause:
the last row is dropped when it is fully absent
(`index === rows.length - 1 && row.data.every(cell => cell === null)`). -/
def countedRows (rows : List DataRow) : List DataRow :=
  match rows.getLast? with
  | some last => if isAllAbsent last then rows.dropLast else rows
  | none => rows

/-- `calculateColumnAverages` from `DataInput.tsx`: for each column name
index, the mean of the collected group, or `null` when the group is empty. -/
def calculateColumnAverages (columnNames : List String) (rows : List DataRow) :
    List (Option ℚ) :=
  mapIdxFrom
    (fun index _ =>
      let group := column (countedRows rows) index
      if 0 < group.length then some (group.sum / group.length) else none)
    0 columnNames

/-- The rendering of one average from the `ColumnAverages` component of
`DataInput.tsx`: `average !== null ? average.toFixed(2) : "--"` (the numeric
formatting itself is abstracted by `toString`). -/
def avgText (average : Option ℚ) : String :=
  match average with
  | some v => toString v
  | none => "--"

/-- JavaScript `value.trim()` on a string modelled as its character list:
whitespace stripped from both ends. -/
def trimChars (l : List Char) : List Char :=
  ((l.dropWhile (fun c => c.isWhitespace)).reverse.dropWhile
    (fun c => c.isWhitespace)).reverse

/-- One parsed CSV cell from `handleFileUpload` in `DataInput.tsx`:
`value === '' ? null : Number(value)`.  The numeric conversion `Number` is
abstracted by the parameter `numParse`. -/
def parseCell (numParse : List Char → ℚ) (v : List Char) : Option ℚ :=
  if v = [] then none else some (numParse v)

/-- One parsed CSV line from `handleFileUpload` in `DataInput.tsx`:
split on commas, trim each value, pop the last value as the assignment
(`parseInt(values.pop() || '0', 10)`, abstracted by `intParse`), and turn
the remaining values into cells. -/
def parseLine (numParse : List Char → ℚ) (intParse : List Char → ℕ) (line : List Char) :
    DataRow :=
  let values := (line.splitOn ',').map trimChars
  let popped := values.getLast?.getD []
  { data := values.dropLast.map (parseCell numParse)
    assignment := intParse (if popped = [] then ['0'] else popped) }

/-- The non-empty lines of the uploaded text, from `handleFileUpload`:
`text.split('\n').filter(line => line.trim() !== '')`. -/
def uploadLines (text : List Char) : List (List Char) :=
  (text.splitOn '\n').filter (fun l => decide (trimChars l ≠ []))

/-- Modelled from the spec: `setUserData(newState)` (a Data Model mutator
living outside the provided sources) replaces the DataSet wholesale; the
trailing-placeholder invariant is re-derived afterwards by the watching
controller `ensurePlaceholder`. -/
def setUserData (newState : UserDataState) (_old : UserDataState) : UserDataState :=
  newState

/-- The parsed rows of an uploaded text, from `handleFileUpload`:
`lines.map(line => ...)`. -/
def uploadRows (numParse : List Char → ℚ) (intParse : List Char → ℕ)
    (text : List Char) : List DataRow :=
  (uploadLines text).map (parseLine numParse intParse)

/-- `Math.max(...rows.map(row => row.data.length))` from `handleFileUpload`
(the spread of an empty list, which throws in the source when building the
placeholder, is modelled as 0). -/
def uploadColumnCount (numParse : List Char → ℚ) (intParse : List Char → ℕ)
    (text : List Char) : ℕ :=
  ((uploadRows numParse intParse text).map (fun r => r.data.length)).foldl max 0

/-- `handleFileUpload` from `DataInput.tsx`: returns early while simulating;
otherwise parses the text into rows, computes
`dataColumnCount = Math.max(...rows.map(row => row.data.length))`, and calls
`setUserData` with the parsed rows followed by one fully-absent placeholder
of that width, `controlColumnIndex: 0`, and the previous column names. -/
def handleFileUpload (numParse : List Char → ℚ) (intParse : List Char → ℕ)
    (isSimulating : Bool) (text : List Char) (userData : UserDataState) : UserDataState :=
  if isSimulating then userData
  else
    setUserData
      { rows := uploadRows numParse intParse text ++
          [⟨List.replicate (uploadColumnCount numParse intParse text) none, 0⟩]
        controlColumnIndex := 0
        columnNames := userData.columnNames }
      userData

/-- Modelled from the spec: the History Manager (living outside the provided
sources) keeps a past stack, the present DataSet, and a future stack. -/
structure History where
  past : List UserDataState
  present : UserDataState
  future : List UserDataState
deriving DecidableEq, Repr

namespace History

/-- Modelled from the spec: `record(previous, next)` pushes the previous
present onto the past stack, installs the next state, and clears the
future stack. -/
def record (h : History) (next : UserDataState) : History :=
  ⟨h.present :: h.past, next, []⟩

/-- Modelled from the spec: `undo()` pops past, applies it, and pushes the
just-left state onto future; no-op when past is empty. -/
def undo (h : History) : History :=
  match h.past with
  | [] => h
  | p :: rest => ⟨rest, p, h.present :: h.future⟩

/-- Modelled from the spec: `redo()` is the mirror of `undo` on the future
stack; no-op when future is empty. -/
def redo (h : History) : History :=
  match h.future with
  | [] => h
  | f :: rest => ⟨h.present :: h.past, f, rest⟩

end History

/-- Modelled from the spec: the Simulation Run Controller's status. -/
inductive RunStatus
  | Idle
  | Running
  | Cancelled
  | Completed
deriving DecidableEq, Repr

/-- Modelled from the spec: the named recoverable error kinds. -/
inductive CoreError
  | IndexError
  | InvalidStateError
  | EmptyDataError
  | LockedError
deriving DecidableEq, Repr

/-- The Data Model and History Manager operations named by the lock
contract: `updateCell`, `setUserData`, `renameColumn`,
`imputeTreatmentEffect`, `undo`, `redo`. -/
inductive DataCommand
  | updateCellCmd (rowIndex slotIndex : ℕ) (value : Option ℚ)
  | setUserDataCmd (newState : UserDataState)
  | renameColumnCmd (index : ℕ) (name : String)
  | imputeTreatmentEffectCmd (effect : ℚ)
  | undoCmd
  | redoCmd
deriving DecidableEq, Repr

/-- Modelled from the spec: the core's state — the history (whose present is
the current DataSet) and the run status. -/
structure Core where
  history : History
  status : RunStatus
deriving DecidableEq, Repr

/-- Modelled from the spec: index validity for a command (`IndexError`
rejects out-of-range row or slot indices before any change is applied). -/
def validCmd (cmd : DataCommand) (st : UserDataState) : Bool :=
  match cmd with
  | .updateCellCmd rowIndex slotIndex _ =>
    decide (rowIndex < st.rows.length) &&
      match st.rows[rowIndex]? with
      | some row => decide (slotIndex < row.data.length)
      | none => false
  | .renameColumnCmd index _ => decide (index < st.columnNames.length)
  | _ => true

/-- Modelled from the spec: applying an (already validated, unlocked)
command to the history — mutators record the new DataSet version,
`undo`/`redo` move along the history. `imputeTreatmentEffect` is the
source's `applyTreatmentEffect` outside simulation. -/
def applyData (cmd : DataCommand) (h : History) : History :=
  match cmd with
  | .updateCellCmd rowIndex slotIndex value =>
    h.record (updateCell rowIndex slotIndex value h.present)
  | .setUserDataCmd newState => h.record (setUserData newState h.present)
  | .renameColumnCmd index name => h.record (renameColumn index name h.present)
  | .imputeTreatmentEffectCmd effect =>
    h.record (applyTreatmentEffect false effect h.present)
  | .undoCmd => h.undo
  | .redoCmd => h.redo

/-- Modelled from the spec: while `Running`, every Data Model mutator and
History Manager operation is rejected with `LockedError`; otherwise the
command is validated (`IndexError`) and then applied. -/
def dispatch (cmd : DataCommand) (c : Core) : Except CoreError Core :=
  if c.status = RunStatus.Running then Except.error CoreError.LockedError
  else if validCmd cmd c.history.present = false then Except.error CoreError.IndexError
  else Except.ok { c with history := applyData cmd c.history }

/-- The state actually reached by issuing a command: on error the prior
state is kept intact (no partial mutation). -/
def stepCore (cmd : DataCommand) (c : Core) : Core :=
  match dispatch cmd c with
  | Except.ok c2 => c2
  | Except.error _ => c

/-- Modelled from the spec: `cancel()` transitions `Running` to `Cancelled`
(valid only while `Running`); trials are kept, the lock releases. -/
def cancelRun (c : Core) : Core :=
  if c.status = RunStatus.Running then { c with status := RunStatus.Cancelled } else c

/-- Modelled from the spec: natural completion transitions `Running` to
`Completed`, releasing the lock. -/
def completeRun (c : Core) : Core :=
  if c.status = RunStatus.Running then { c with status := RunStatus.Completed } else c

/-- Modelled from the spec: the derived p-value — the fraction of trials
whose statistic is at least as extreme as the observed statistic
(two-sided, ties inclusive); undefined when zero trials exist. -/
def pValue (observedStatistic : ℚ) (trialStats : List ℚ) : Option ℚ :=
  if trialStats.isEmpty then none
  else some ((trialStats.countP (fun t => decide (|observedStatistic| ≤ |t|)) : ℚ) /
    (trialStats.length : ℚ))

/-- The p-value rendering from `PlotDisplay.tsx`:
`pValue !== null && !isNaN(pValue) ? pValue.toFixed(4) : 'N/A'`
(the numeric formatting is abstracted by `toString`). -/
def pValueText (p : Option ℚ) : String :=
  match p with
  | some v => toString v
  | none => "N/A"

/-- The empty-group mean sentinel: the mean of a list of values, undefined
on the empty list. -/
def meanOpt (xs : List ℚ) : Option ℚ :=
  if xs.isEmpty then none else some (xs.sum / (xs.length : ℚ))

/-- Modelled from the spec: the observed difference-of-group-means statistic
(the statistic functions live outside the provided sources): mean of the
group of slot 1 minus mean of the group of slot 0, collected the same way
the in-source `calculateColumnAverages` collects groups; undefined when a
group is empty. -/
def observedStatistic (rows : List DataRow) : Option ℚ :=
  match meanOpt (column (countedRows rows) 1), meanOpt (column (countedRows rows) 0) with
  | some a, some b => some (a - b)
  | _, _ => none

/-- The DataSet a session starts with: one placeholder row, control column
0, two named columns. -/
def initialState : UserDataState :=
  ⟨[⟨[none, none], 0⟩], 0, ["Control", "Treatment"]⟩

/-- A concrete stand-in for JavaScript `Number` on the small numerals used
in witnesses. -/
def numParseC (s : List Char) : ℚ :=
  (((String.mk s).toNat?).getD 0 : ℚ)

/-- A concrete stand-in for JavaScript `parseInt` on the small numerals used
in witnesses. -/
def intParseC (s : List Char) : ℕ :=
  ((String.mk s).toNat?).getD 0

/-- A core whose run is in progress, used to witness the lock contract. -/
def runningCore : Core :=
  ⟨⟨[], initialState, []⟩, RunStatus.Running⟩

/- ### Supporting lemmas -/

@[simp]
theorem mapIdxFrom_nil (f : ℕ → α → β) (n : ℕ) : mapIdxFrom f n [] = [] := rfl

@[simp]
theorem mapIdxFrom_cons (f : ℕ → α → β) (n : ℕ) (a : α) (as : List α) :
    mapIdxFrom f n (a :: as) = f n a :: mapIdxFrom f (n + 1) as := rfl

@[simp]
theorem length_mapIdxFrom (f : ℕ → α → β) (n : ℕ) (l : List α) :
    (mapIdxFrom f n l).length = l.length := by
  induction l generalizing n with
  | nil => rfl
  | cons a as ih => simp [mapIdxFrom, ih]

theorem getElem?_mapIdxFrom (f : ℕ → α → β) (n i : ℕ) (l : List α) :
    (mapIdxFrom f n l)[i]? = (l[i]?).map (f (n + i)) := by
  induction l generalizing n i with
  | nil => simp [mapIdxFrom]
  | cons a as ih =>
    cases i with
    | zero => simp [mapIdxFrom]
    | succ j =>
      simp only [mapIdxFrom, List.getElem?_cons_succ, ih (n + 1) j]
      have h : n + 1 + j = n + (j + 1) := by omega
      rw [h]

theorem mapIdxFrom_congr (f g : ℕ → α → β) (n : ℕ) (l : List α)
    (h : ∀ i x, f i x = g i x) : mapIdxFrom f n l = mapIdxFrom g n l := by
  induction l generalizing n with
  | nil => rfl
  | cons a as ih => simp [mapIdxFrom, h, ih]

theorem mapIdxFrom_eq_map (g : α → β) (n : ℕ) (l : List α) :
    mapIdxFrom (fun _ x => g x) n l = l.map g := by
  induction l generalizing n with
  | nil => rfl
  | cons a as ih => simp [mapIdxFrom, ih]

theorem cellContrib_of_allAbsent (row : DataRow) (c : ℕ)
    (h : isAllAbsent row = true) : cellContrib row c = none := by
  unfold cellContrib
  rcases hc : row.data[c]? with _ | cell
  · rfl
  · have hmem : cell ∈ row.data := List.getElem?_mem hc
    have : cell = none := by
      have := (List.all_eq_true.mp h) cell hmem
      simpa using this
    subst this
    rfl

theorem cellContrib_of_ne_assignment (row : DataRow) (c : ℕ)
    (h : row.assignment ≠ c) : cellContrib row c = none := by
  unfold cellContrib
  rcases row.data[c]? with _ | (_ | v) <;> simp [h]

@[simp]
theorem column_nil (c : ℕ) : column [] c = [] := rfl

theorem column_append (l1 l2 : List DataRow) (c : ℕ) :
    column (l1 ++ l2) c = column l1 c ++ column l2 c := by
  simp [column]

theorem isAllAbsent_replicate (k a : ℕ) :
    isAllAbsent ⟨List.replicate k none, a⟩ = true := by
  simp [isAllAbsent]

/-- The skip clause of `calculateColumnAverages` never changes a group: the
only row it can skip is fully absent and contributes no value. -/
theorem column_countedRows (rows : List DataRow) (c : ℕ) :
    column (countedRows rows) c = column rows c := by
  unfold countedRows
  rcases hlast : rows.getLast? with _ | last
  · rfl
  · by_cases habs : isAllAbsent last = true
    · simp only [habs, if_pos rfl]
      have hsplit : rows.dropLast ++ [last] = rows :=
        List.dropLast_append_getLast? last hlast
      conv_rhs => rw [← hsplit]
      rw [column_append]
      simp [column, cellContrib_of_allAbsent last c habs]
    · simp [habs]

theorem column_eq_nil_of_no_contrib (rows : List DataRow) (c : ℕ)
    (h : ∀ row ∈ rows, cellContrib row c = none) : column rows c = [] := by
  simp only [column, List.filterMap_eq_nil_iff]
  exact h

theorem ensurePlaceholder_append (st : UserDataState)
    (hc : st.rows = [] ∨ ∃ l ∈ st.rows.getLast?, l.data.all (fun c => c.isSome)) :
    ensurePlaceholder false st = addRow st := by
  unfold ensurePlaceholder
  rw [if_pos ⟨rfl, hc⟩]

theorem ensurePlaceholder_skip (st : UserDataState)
    (hc : ¬ (st.rows = [] ∨ ∃ l ∈ st.rows.getLast?, l.data.all (fun c => c.isSome))) :
    ensurePlaceholder false st = st := by
  unfold ensurePlaceholder
  rw [if_neg]
  intro h
  exact hc h.2

/- ### Claim theorems -/

/-- C1. Undo/redo round-trip: after any mutation is recorded on any
reachable history, `undo` restores the exact prior DataSet (structural
equality), `redo` after that `undo` restores the whole post-mutation
history (in particular the mutated DataSet), and recording any new
mutation after an undo leaves an empty future (redo) stack.  Every Data
Model mutator dispatches through `History.record`
(see `applyData`), so this covers every sequence of mutations. -/
theorem undo_redo_round_trip (h : History) (next m : UserDataState) :
    ((h.record next).undo).present = h.present
    ∧ ((h.record next).undo).redo = h.record next
    ∧ (((h.record next).undo).record m).future = [] := by
  refine ⟨rfl, rfl, rfl⟩

/-- C2. Lock enforcement: while the run status is `Running`, each of the six
operations (`updateCell`, `setUserData`, `renameColumn`,
`imputeTreatmentEffect`, `undo`, `redo`) is rejected with `LockedError` and
the core (hence the DataSet) is unchanged; after `cancel()` or natural
completion the same (index-valid) operation succeeds and applies. -/
theorem lock_enforcement (c : Core) (cmd : DataCommand)
    (hrun : c.status = RunStatus.Running)
    (hv : validCmd cmd c.history.present = true) :
    dispatch cmd c = Except.error CoreError.LockedError
    ∧ stepCore cmd c = c
    ∧ dispatch cmd (cancelRun c) =
        Except.ok { cancelRun c with history := applyData cmd (cancelRun c).history }
    ∧ dispatch cmd (completeRun c) =
        Except.ok { completeRun c with history := applyData cmd (completeRun c).history } := by
  have hcancel : (cancelRun c).status = RunStatus.Cancelled := by
    simp [cancelRun, hrun]
  have hcomplete : (completeRun c).status = RunStatus.Completed := by
    simp [completeRun, hrun]
  have hchist : (cancelRun c).history = c.history := by
    simp [cancelRun, hrun]
  have hdhist : (completeRun c).history = c.history := by
    simp [completeRun, hrun]
  refine ⟨?_, ?_, ?_, ?_⟩
  · simp [dispatch, hrun]
  · simp [stepCore, dispatch, hrun]
  · simp [dispatch, hcancel, hchist, hv]
  · simp [dispatch, hcomplete, hdhist, hv]

/-- Witness for C2 at a concrete running core and a concrete in-range
`updateCell`. -/
theorem lock_enforcement_witness :
    dispatch (DataCommand.updateCellCmd 0 0 (some 1)) runningCore =
        Except.error CoreError.LockedError
    ∧ stepCore (DataCommand.updateCellCmd 0 0 (some 1)) runningCore = runningCore
    ∧ dispatch (DataCommand.updateCellCmd 0 0 (some 1)) (cancelRun runningCore) =
        Except.ok
          { cancelRun runningCore with
            history := applyData (DataCommand.updateCellCmd 0 0 (some 1))
              (cancelRun runningCore).history }
    ∧ dispatch (DataCommand.updateCellCmd 0 0 (some 1)) (completeRun runningCore) =
        Except.ok
          { completeRun runningCore with
            history := applyData (DataCommand.updateCellCmd 0 0 (some 1))
              (completeRun runningCore).history } :=
  lock_enforcement runningCore (DataCommand.updateCellCmd 0 0 (some 1)) rfl (by decide)

/-- C3 counterexample: starting from the initial DataSet, setting the first
cell of the placeholder row (reaching the row `[ some 5, null ]`, which has
a populated slot, so per the claim is "no longer all-absent") and running
the watching controller appends nothing: the controller only appends when
the last row has NO absent cell.  The resulting last (and only) row is not
fully absent, so the claimed invariant "the last row is the unique
fully-absent placeholder row" is false after this mutation sequence. -/
theorem placeholder_claim_counterexample :
    (ensurePlaceholder false (updateCell 0 0 (some 5) initialState)).rows =
      [⟨[some 5, none], 0⟩]
    ∧ isAllAbsent ⟨[some 5, none], 0⟩ = false := by
  decide

/-- C3 amended: the watching controller appends a fresh fully-absent
placeholder row exactly when the row list is empty or the last row is fully
populated (no absent cell); consequently after the controller runs the last
row always has at least one absent cell (it need not be fully absent, and
no uniqueness among fully-absent rows is maintained). -/
theorem placeholder_last_row_open (st : UserDataState)
    (hG : 0 < st.columnNames.length) :
    (∃ last, (ensurePlaceholder false st).rows.getLast? = some last ∧
      ∃ cell ∈ last.data, cell = none)
    ∧ (ensurePlaceholder false st = addRow st ↔
        (st.rows = [] ∨ ∃ l ∈ st.rows.getLast?, l.data.all (fun c => c.isSome))) := by
  constructor
  · by_cases hc : st.rows = [] ∨ ∃ l ∈ st.rows.getLast?, l.data.all (fun c => c.isSome)
    · have heq := ensurePlaceholder_append st hc
      refine ⟨⟨List.replicate st.columnNames.length none, 0⟩, ?_, ?_⟩
      · simp [heq, addRow]
      · exact ⟨none, List.mem_replicate.mpr ⟨by omega, rfl⟩, rfl⟩
    · have heq := ensurePlaceholder_skip st hc
      push_neg at hc
      obtain ⟨hne, hnotall⟩ := hc
      rcases hlast : st.rows.getLast? with _ | last
      · exact absurd (List.getLast?_eq_none_iff.mp hlast) hne
      · have hnall : ¬ last.data.all (fun c => c.isSome) = true := by
          intro hall
          exact absurd hall (by simpa using hnotall last hlast)
        rw [List.all_eq_true] at hnall
        push_neg at hnall
        obtain ⟨cell, hmem, hcell⟩ := hnall
        refine ⟨last, by simp [heq, hlast], cell, hmem, ?_⟩
        simpa using hcell
  · constructor
    · intro heq
      by_contra hc
      have hid := ensurePlaceholder_skip st hc
      have hsa : st = addRow st := hid.symm.trans heq
      have hlen : st.rows.length = st.rows.length + 1 := by
        conv_lhs => rw [hsa]
        simp [addRow]
      omega
    · intro hc
      exact ensurePlaceholder_append st hc

/-- Witness for C3's amended theorem at the initial DataSet. -/
theorem placeholder_last_row_open_witness :
    (∃ last, (ensurePlaceholder false initialState).rows.getLast? = some last ∧
      ∃ cell ∈ last.data, cell = none)
    ∧ (ensurePlaceholder false initialState = addRow initialState ↔
        (initialState.rows = [] ∨
          ∃ l ∈ initialState.rows.getLast?, l.data.all (fun c => c.isSome))) :=
  placeholder_last_row_open initialState (by decide)

/- Case lemmas for `applyTreatmentEffectRow` on a two-slot row. -/

theorem applyRow_ref0_populated (e va : ℚ) (b : Option ℚ) :
    applyTreatmentEffectRow e ⟨[some va, b], 0⟩ = ⟨[some va, some (va + e)], 0⟩ := by
  simp [applyTreatmentEffectRow]

theorem applyRow_ref0_other (e vb : ℚ) :
    applyTreatmentEffectRow e ⟨[none, some vb], 0⟩ = ⟨[some (vb - e), some vb], 0⟩ := by
  simp [applyTreatmentEffectRow, sub_eq_add_neg]

theorem applyRow_ref1_populated (e vb : ℚ) (a : Option ℚ) :
    applyTreatmentEffectRow e ⟨[a, some vb], 1⟩ = ⟨[some (vb - e), some vb], 1⟩ := by
  rcases a with _ | va <;> simp [applyTreatmentEffectRow, sub_eq_add_neg]

theorem applyRow_ref1_other (e va : ℚ) :
    applyTreatmentEffectRow e ⟨[some va, none], 1⟩ = ⟨[some va, some (va + e)], 1⟩ := by
  simp [applyTreatmentEffectRow]

theorem applyRow_bothAbsent (e : ℚ) (g : ℕ) (hg : g < 2) :
    applyTreatmentEffectRow e ⟨[none, none], g⟩ = ⟨[none, none], g⟩ := by
  interval_cases g <;> simp [applyTreatmentEffectRow]

theorem applyTreatmentEffect_getLast (e : ℚ) (st : UserDataState) :
    (applyTreatmentEffect false e st).rows.getLast? = st.rows.getLast? := by
  show (mapIdxFrom _ 0 st.rows).getLast? = st.rows.getLast?
  rw [List.getLast?_eq_getElem?, List.getLast?_eq_getElem?, length_mapIdxFrom,
    getElem?_mapIdxFrom]
  rcases h : st.rows[st.rows.length - 1]? with _ | row
  · rfl
  · simp

/-- C4 counterexample: on the DataSet whose sole non-placeholder row has
BOTH slots populated (`[5, 7]`, assignment 0), `imputeTreatmentEffect(1)`
(the source's `applyTreatmentEffect`) overwrites the non-assignment slot,
producing `[5, 6]`: a row with both slots populated is not left unchanged,
refuting the claim. -/
theorem impute_both_populated_counterexample :
    (applyTreatmentEffect false 1
        ⟨[⟨[some 5, some 7], 0⟩, ⟨[none, none], 0⟩], 0, ["A", "B"]⟩).rows =
      [⟨[some 5, some 6], 0⟩, ⟨[none, none], 0⟩]
    ∧ (⟨[some 5, some 6], 0⟩ : DataRow) ≠ ⟨[some 5, some 7], 0⟩ := by
  constructor
  · simp [applyTreatmentEffect, applyTreatmentEffectRow, mapIdxFrom]
    norm_num
  · intro h
    have := congrArg DataRow.data h
    simp at this

/-- C4 amended: `imputeTreatmentEffect(effect)` leaves rows with neither
slot populated unchanged and fills the missing slot of rows with exactly
one populated slot (keeping the populated slot); but a row with both slots
populated is NOT left untouched — its non-assignment slot is overwritten
from the assignment slot's value; the last (placeholder) row is always
kept as is. -/
theorem impute_row_contract (effect : ℚ) (a b : Option ℚ) (g : ℕ) (hg : g < 2) :
    (a = none → b = none → applyTreatmentEffectRow effect ⟨[a, b], g⟩ = ⟨[a, b], g⟩)
    ∧ (∀ v : ℚ, a = some v → b = none →
        (applyTreatmentEffectRow effect ⟨[a, b], g⟩).data = [some v, some (v + effect)])
    ∧ (∀ v : ℚ, a = none → b = some v →
        (applyTreatmentEffectRow effect ⟨[a, b], g⟩).data = [some (v - effect), some v])
    ∧ (∀ va vb : ℚ, a = some va → b = some vb → g = 0 →
        (applyTreatmentEffectRow effect ⟨[a, b], g⟩).data = [some va, some (va + effect)])
    ∧ (∀ va vb : ℚ, a = some va → b = some vb → g = 1 →
        (applyTreatmentEffectRow effect ⟨[a, b], g⟩).data = [some (vb - effect), some vb])
    ∧ (∀ st : UserDataState,
        (applyTreatmentEffect false effect st).rows.getLast? = st.rows.getLast?) := by
  refine ⟨?_, ?_, ?_, ?_, ?_, applyTreatmentEffect_getLast effect⟩
  · intro ha hb
    subst ha hb
    exact applyRow_bothAbsent effect g hg
  · intro v ha hb
    subst ha hb
    interval_cases g
    · rw [applyRow_ref0_populated]
    · rw [applyRow_ref1_other]
  · intro v ha hb
    subst ha hb
    interval_cases g
    · rw [applyRow_ref0_other]
    · rw [applyRow_ref1_populated]
  · intro va vb ha hb hgv
    subst ha hb hgv
    rw [applyRow_ref0_populated]
  · intro va vb ha hb hgv
    subst ha hb hgv
    rw [applyRow_ref1_populated]

/-- Witness for C4's amended theorem: a one-populated row is filled keeping
its populated slot, and a fully-absent row is unchanged. -/
theorem impute_row_contract_witness :
    (applyTreatmentEffectRow 1 ⟨[some 5, none], 0⟩).data = [some 5, some (5 + 1)]
    ∧ applyTreatmentEffectRow 1 ⟨[none, none], 0⟩ = ⟨[none, none], 0⟩ := by
  have h1 := impute_row_contract 1 (some 5) none 0 (by decide)
  have h2 := impute_row_contract 1 none none 0 (by decide)
  exact ⟨h1.2.1 5 rfl rfl, h2.1 rfl rfl⟩

/-- C5 counterexample: with `controlColumnIndex = 1` (slot 1 is the control
group), the row `[5, null]` with assignment 0 holds a treatment-slot value,
so the claimed sign rule demands the control slot be filled with
`5 − effect = 4`; the code fills `5 + effect = 6` — the sign is decided by
the slot position alone (slot 0 hard-coded as the reference direction), not
by `controlGroupIndex`. -/
theorem impute_sign_counterexample :
    (applyTreatmentEffect false 1
        ⟨[⟨[some 5, none], 0⟩, ⟨[none, none], 0⟩], 1, ["A", "B"]⟩).rows =
      [⟨[some 5, some 6], 0⟩, ⟨[none, none], 0⟩]
    ∧ (6 : ℚ) ≠ 5 - 1 := by
  constructor
  · simp [applyTreatmentEffect, applyTreatmentEffectRow, mapIdxFrom]
    norm_num
  · norm_num

/-- C5 amended: whenever `imputeTreatmentEffect(effect)` touches a row with
at least one populated slot, the result satisfies `slot1 = slot0 + effect`:
the sign is determined by the slot positions (slot 0 treated as the
control/reference direction), and the DataSet's `controlColumnIndex` has no
influence on the produced rows at all. -/
theorem impute_sign_contract (effect : ℚ) (a b : Option ℚ) (g : ℕ) (hg : g < 2)
    (hpop : a ≠ none ∨ b ≠ none) :
    (∃ x : ℚ, (applyTreatmentEffectRow effect ⟨[a, b], g⟩).data =
      [some x, some (x + effect)])
    ∧ ∀ (st : UserDataState) (i : ℕ),
        (applyTreatmentEffect false effect { st with controlColumnIndex := i }).rows =
          (applyTreatmentEffect false effect st).rows := by
  constructor
  · interval_cases g
    · rcases a with _ | va
      · rcases b with _ | vb
        · simp at hpop
        · exact ⟨vb - effect, by rw [applyRow_ref0_other]; simp⟩
      · exact ⟨va, by rw [applyRow_ref0_populated]⟩
    · rcases b with _ | vb
      · rcases a with _ | va
        · simp at hpop
        · exact ⟨va, by rw [applyRow_ref1_other]⟩
      · exact ⟨vb - effect, by rw [applyRow_ref1_populated]; simp⟩
  · intro st i
    rfl

/-- Witness for C5's amended theorem at a one-populated row and at the
initial DataSet with a changed control column. -/
theorem impute_sign_contract_witness :
    (∃ x : ℚ, (applyTreatmentEffectRow 1 ⟨[some 5, none], 0⟩).data =
      [some x, some (x + 1)])
    ∧ (applyTreatmentEffect false 1
        { initialState with controlColumnIndex := 1 }).rows =
      (applyTreatmentEffect false 1 initialState).rows := by
  have h := impute_sign_contract 1 (some 5) none 0 (by decide) (Or.inl (by decide))
  exact ⟨h.1, h.2 initialState 1⟩

theorem column_absent_append (rows : List DataRow) (k g c : ℕ) :
    column (rows ++ [⟨List.replicate k none, g⟩]) c = column rows c := by
  rw [column_append]
  simp [column, cellContrib_of_allAbsent _ c (isAllAbsent_replicate k g)]

/-- C6. The derived p-value over zero trials is undefined (`none`), rendered
`"N/A"` by the display of `PlotDisplay.tsx` — never as a zero; and whenever
at least one trial exists, the p-value is defined and lies in `[0, 1]`. -/
theorem pvalue_contract (obs : ℚ) (stats : List ℚ) (hne : stats ≠ []) :
    pValue obs [] = none
    ∧ pValueText (pValue obs []) = "N/A"
    ∧ pValueText (pValue obs []) ≠ pValueText (some 0)
    ∧ ∃ p : ℚ, pValue obs stats = some p ∧ 0 ≤ p ∧ p ≤ 1 := by
  refine ⟨by simp [pValue], by simp [pValue, pValueText], ?_, ?_⟩
  · have h0 : pValue obs [] = none := by simp [pValue]
    rw [h0]
    decide
  have hempty : stats.isEmpty = false := by
    simpa using hne
  have hlen : 0 < stats.length := List.length_pos.mpr hne
  refine ⟨(stats.countP (fun t => decide (|obs| ≤ |t|)) : ℚ) / (stats.length : ℚ),
    by simp [pValue, hempty], ?_, ?_⟩
  · apply div_nonneg (Nat.cast_nonneg _) (Nat.cast_nonneg _)
  · rw [div_le_one (by exact_mod_cast hlen)]
    exact_mod_cast List.countP_le_length _

/-- Witness for C6 at zero trials and at the single trial list `[3]`. -/
theorem pvalue_contract_witness :
    pValue 3 [] = none
    ∧ pValueText (pValue 3 []) = "N/A"
    ∧ ∃ p : ℚ, pValue 3 [3] = some p ∧ 0 ≤ p ∧ p ≤ 1 := by
  have h := pvalue_contract 3 [3] (by decide)
  exact ⟨h.1, h.2.1, h.2.2.2⟩

/-- C7. Statistic computation over a DataSet holding only the placeholder
row is undefined (`null` averages, rendered `"--"`; an undefined observed
statistic), not zero; and a trailing fully-absent row never contributes to
any group's aggregate: appending it changes neither the column averages nor
the observed statistic. -/
theorem placeholder_never_counted (names : List String) (rows : List DataRow) (k g : ℕ) :
    calculateColumnAverages names [⟨List.replicate k none, g⟩] = names.map (fun _ => none)
    ∧ avgText none = "--"
    ∧ observedStatistic [⟨List.replicate k none, g⟩] = none
    ∧ calculateColumnAverages names (rows ++ [⟨List.replicate k none, g⟩]) =
        calculateColumnAverages names rows
    ∧ observedStatistic (rows ++ [⟨List.replicate k none, g⟩]) = observedStatistic rows := by
  have hone : ∀ c, column (countedRows [(⟨List.replicate k none, g⟩ : DataRow)]) c = [] := by
    intro c
    rw [column_countedRows]
    simpa using column_absent_append [] k g c
  have happ : ∀ c, column (countedRows (rows ++ [⟨List.replicate k none, g⟩])) c =
      column (countedRows rows) c := by
    intro c
    rw [column_countedRows, column_countedRows]
    exact column_absent_append rows k g c
  refine ⟨?_, rfl, ?_, ?_, ?_⟩
  · rw [calculateColumnAverages, ← mapIdxFrom_eq_map]
    exact mapIdxFrom_congr _ _ 0 names (fun i x => by simp [hone i])
  · simp [observedStatistic, hone, meanOpt]
  · rw [calculateColumnAverages, calculateColumnAverages]
    exact mapIdxFrom_congr _ _ 0 names (fun i x => by rw [happ i])
  · rw [observedStatistic, observedStatistic, happ 0, happ 1]

/-- C9. `renameColumn(index, name)` stores the name truncated to its first
20 characters: the stored entry is exactly `strTake20 name`, which never
exceeds 20 characters, and an input of at most 20 characters is stored
unchanged; the rows and every other column name are untouched (truncation,
never rejection). -/
theorem rename_truncates (index : ℕ) (name : String) (st : UserDataState)
    (hidx : index < st.columnNames.length) :
    (renameColumn index name st).columnNames[index]? = some (strTake20 name)
    ∧ (strTake20 name).length ≤ 20
    ∧ (name.length ≤ 20 → strTake20 name = name)
    ∧ (renameColumn index name st).rows = st.rows
    ∧ ∀ j, j ≠ index → (renameColumn index name st).columnNames[j]? = st.columnNames[j]? := by
  refine ⟨?_, ?_, ?_, rfl, ?_⟩
  · exact List.getElem?_set_self (by simpa using hidx)
  · show (name.data.take 20).length ≤ 20
    simp [List.length_take]
  · intro hle
    obtain ⟨data⟩ := name
    show String.mk (data.take 20) = String.mk data
    rw [List.take_of_length_le hle]
  · intro j hj
    exact List.getElem?_set_ne (fun h => hj h.symm)

/-- Witness for C9: a 26-character name is stored as its first 20
characters; a short name is kept unchanged. -/
theorem rename_truncates_witness :
    (renameColumn 0 "abcdefghijklmnopqrstuvwxyz" initialState).columnNames[0]? =
      some (strTake20 "abcdefghijklmnopqrstuvwxyz")
    ∧ strTake20 "abcdefghijklmnopqrstuvwxyz" = "abcdefghijklmnopqrst"
    ∧ strTake20 "short" = "short" := by
  have h1 := rename_truncates 0 "abcdefghijklmnopqrstuvwxyz" initialState (by decide)
  have h2 := rename_truncates 0 "short" initialState (by decide)
  exact ⟨h1.1, by decide, h2.2.2.1 (by decide)⟩

/-- C8 counterexample: uploading the text `"1,2,0\n,,0"` — whose second
line parses to a row with two empty cells, hence a fully-absent row — and
running the watching controller yields three rows of which the last TWO are
fully absent: the resulting DataSet does not end with exactly one
fully-absent placeholder row. -/
theorem upload_counterexample :
    ((ensurePlaceholder false (handleFileUpload numParseC intParseC false
        ("1,2,0\n,,0").data initialState)).rows.map (fun r => isAllAbsent r)) =
      [false, true, true] := by
  decide

/-- C8 amended: whenever the parsed rows have a positive maximum column
count, the DataSet produced by a bulk import (after the watching
controller) ends with a fully-absent placeholder row whose data length is
that maximum parsed column count, its `controlColumnIndex` is 0 (a valid
slot index), and the column names are kept; but the trailing fully-absent
row need not be unique when the parsed input itself contains fully-absent
lines. -/
theorem upload_contract (numParse : List Char → ℚ) (intParse : List Char → ℕ)
    (text : List Char) (st : UserDataState)
    (hc : 0 < uploadColumnCount numParse intParse text) :
    (ensurePlaceholder false (handleFileUpload numParse intParse false text st)).rows.getLast? =
      some ⟨List.replicate (uploadColumnCount numParse intParse text) none, 0⟩
    ∧ ensurePlaceholder false (handleFileUpload numParse intParse false text st) =
        handleFileUpload numParse intParse false text st
    ∧ (handleFileUpload numParse intParse false text st).controlColumnIndex = 0
    ∧ (handleFileUpload numParse intParse false text st).columnNames = st.columnNames
    ∧ (0 < st.columnNames.length →
        (handleFileUpload numParse intParse false text st).controlColumnIndex <
          (handleFileUpload numParse intParse false text st).columnNames.length) := by
  have hrows : (handleFileUpload numParse intParse false text st).rows =
      uploadRows numParse intParse text ++
        [⟨List.replicate (uploadColumnCount numParse intParse text) none, 0⟩] := rfl
  have hlast : (handleFileUpload numParse intParse false text st).rows.getLast? =
      some ⟨List.replicate (uploadColumnCount numParse intParse text) none, 0⟩ := by
    rw [hrows]
    exact List.getLast?_concat _
  have hskip : ensurePlaceholder false (handleFileUpload numParse intParse false text st) =
      handleFileUpload numParse intParse false text st := by
    apply ensurePlaceholder_skip
    rintro (hnil | ⟨l, hl, hall⟩)
    · rw [hrows] at hnil
      exact absurd hnil (by simp)
    · rw [hlast, Option.mem_def, Option.some_inj] at hl
      subst hl
      have hmem : (none : Option ℚ) ∈
          List.replicate (uploadColumnCount numParse intParse text) (none : Option ℚ) :=
        List.mem_replicate.mpr ⟨by omega, rfl⟩
      have := (List.all_eq_true.mp hall) none hmem
      simp at this
  refine ⟨?_, hskip, rfl, rfl, fun h => by simpa using h⟩
  rw [hskip]
  exact hlast

/-- Witness for C8's amended theorem at the one-line upload `"1,2,0"`. -/
theorem upload_contract_witness :
    (ensurePlaceholder false (handleFileUpload numParseC intParseC false
        ("1,2,0").data initialState)).rows.getLast? =
      some ⟨List.replicate (uploadColumnCount numParseC intParseC ("1,2,0").data) none, 0⟩
    ∧ (handleFileUpload numParseC intParseC false ("1,2,0").data
        initialState).controlColumnIndex = 0 := by
  have h := upload_contract numParseC intParseC ("1,2,0").data initialState (by decide)
  exact ⟨h.1, h.2.2.1⟩

theorem cellContrib_set_ne (row : DataRow) (c : ℕ) (v : Option ℚ) (i : ℕ)
    (h : row.assignment ≠ c) :
    cellContrib { row with data := row.data.set c v } i = cellContrib row i := by
  by_cases hic : i = c
  · subst hic
    rw [cellContrib_of_ne_assignment _ i (by simpa using h),
      cellContrib_of_ne_assignment _ i h]
  · unfold cellContrib
    have hci : c ≠ i := fun hci => hic hci.symm
    simp only [List.getElem?_set_ne hci]

/-- C10. In the displayed column averages a populated cell contributes only
when its row's assignment equals the column index: overwriting any
non-assigned slot (in particular the unused slot of a both-populated paired
row) leaves every column average unchanged, and a column whose group gets
no contributing value yields `null` (not zero). -/
theorem averages_only_assigned (names : List String) (pre post : List DataRow)
    (row : DataRow) (c : ℕ) (v : Option ℚ) (hne : row.assignment ≠ c) :
    calculateColumnAverages names (pre ++ { row with data := row.data.set c v } :: post) =
      calculateColumnAverages names (pre ++ row :: post)
    ∧ ∀ (rows : List DataRow) (j : ℕ), j < names.length →
        (∀ r ∈ rows, r.assignment = j → (r.data[j]? = some none ∨ r.data[j]? = none)) →
        (calculateColumnAverages names rows)[j]? = some none := by
  constructor
  · have hcols : ∀ i, column (countedRows
        (pre ++ { row with data := row.data.set c v } :: post)) i =
        column (countedRows (pre ++ row :: post)) i := by
      intro i
      rw [column_countedRows, column_countedRows, column_append, column_append]
      congr 1
      simp only [column, List.filterMap_cons, cellContrib_set_ne row c v i hne]
    rw [calculateColumnAverages, calculateColumnAverages]
    exact mapIdxFrom_congr _ _ 0 names (fun i x => by rw [hcols i])
  · intro rows j hj hno
    have hcontrib : ∀ r ∈ rows, cellContrib r j = none := by
      intro r hr
      by_cases ha : r.assignment = j
      · rcases hno r hr ha with h | h <;> simp [cellContrib, h]
      · exact cellContrib_of_ne_assignment r j ha
    have hcol : column (countedRows rows) j = [] := by
      rw [column_countedRows]
      exact column_eq_nil_of_no_contrib rows j hcontrib
    rw [calculateColumnAverages, getElem?_mapIdxFrom, List.getElem?_eq_getElem hj]
    simp [hcol]

/-- Witness for C10: replacing the non-assigned slot value 9 by 100 leaves
the averages unchanged, and a column with no contributing value is `null`. -/
theorem averages_only_assigned_witness :
    calculateColumnAverages ["A", "B"] [⟨[some 5, some 100], 0⟩, ⟨[none, none], 0⟩] =
      calculateColumnAverages ["A", "B"] [⟨[some 5, some 9], 0⟩, ⟨[none, none], 0⟩]
    ∧ (calculateColumnAverages ["A", "B"] [⟨[some 5, none], 0⟩])[1]? = some none := by
  have h := averages_only_assigned ["A", "B"] [] [⟨[none, none], 0⟩]
    ⟨[some 5, some 9], 0⟩ 1 (some 100) (by decide)
  exact ⟨h.1, h.2 [⟨[some 5, none], 0⟩] 1 (by decide) (by decide)⟩

end PotentialOutcomes
